import Mathlib

/-!
Verification of the palimp commit-analysis and landing engine
(`cmd/palimp/git.go`, `cmd/palimp/operations.go`, LLM drafting helpers).

The Go code drives git through subprocess calls.  We embed it shallowly:

* every git subprocess primitive becomes a field of a `GitEnv` record
  (a pure function from the command's arguments to its trimmed-or-raw
  stdout, with `Option` capturing a non-zero exit status);
* the Go string helpers (`strings.TrimSpace`, `strings.ToLower`,
  `strings.HasPrefix`, `strings.Split`, `strings.Lines`, `strings.Fields`,
  byte slicing) are reimplemented over `String.data` so that structural
  induction is available.  The embedding works over Unicode code points
  with ASCII case folding and ASCII whitespace; commit hashes, refs and
  Change-Id trailers in this program are ASCII, where the Go byte-level
  operations and these code-point-level operations agree.

Functions keep the Go source's names and control-flow structure.
-/

/-! ## Go string primitives -/

/-- Whitespace as recognised by `strings.TrimSpace` / `strings.Fields`
(ASCII part of `unicode.IsSpace`). -/
def isGoSpace (c : Char) : Bool :=
  c == ' ' || c == '\t' || c == '\n' || c == '\x0b' || c == '\x0c' || c == '\r'

/-- Go `strings.TrimSpace`: drop leading and trailing whitespace. -/
def goTrimSpace (s : String) : String :=
  String.mk (((s.data.dropWhile isGoSpace).reverse.dropWhile isGoSpace).reverse)

/-- Go `strings.ToLower` (ASCII case folding; the strings compared in this
program are ASCII). -/
def goToLower (s : String) : String :=
  String.mk (s.data.map Char.toLower)

/-- Decides whether `pre` is a prefix of `l`. -/
def listIsPre : List Char → List Char → Bool
  | [], _ => true
  | _ :: _, [] => false
  | a :: as, b :: bs => a == b && listIsPre as bs

/-- Go `strings.HasPrefix s pre`. -/
def strHasPre (s pre : String) : Bool :=
  listIsPre pre.data s.data

/-- Go byte-slicing `s[n:]` (code-point based; coincides with the byte form
whenever the first `n` code points are ASCII, which the callers ensure by
first matching an ASCII prefix). -/
def goDrop (s : String) (n : Nat) : String :=
  String.mk (s.data.drop n)

/-- Splits a character list at every separator recognised by `p`; the
separators are consumed.  Mirrors Go `strings.Split` (for a one-character
separator) and is the common core of `strings.Lines` and
`strings.Fields`.  The result is always non-empty. -/
def splitPredAux (p : Char → Bool) : List Char → List (List Char)
  | [] => [[]]
  | c :: cs =>
    if p c then [] :: splitPredAux p cs
    else
      match splitPredAux p cs with
      | [] => [[c]]
      | piece :: pieces => (c :: piece) :: pieces

/-- Go `strings.Split s "\n"`. -/
def splitOnNewline (s : String) : List String :=
  (splitPredAux (fun c => c == '\n') s.data).map String.mk

/-- Go `strings.Lines s`, with the terminating newline of each yielded line
already removed.  `strings.Lines` yields newline-terminated fragments and
omits a final empty fragment; every consumer below immediately runs
`strings.TrimSpace` on the line, so stripping the terminator here is
observationally identical. -/
def goStringsLines (s : String) : List String :=
  let pieces := splitOnNewline s
  if pieces.getLast? == some "" then pieces.dropLast else pieces

/-- Go `strings.Fields`: split around runs of whitespace, dropping empty
fields. -/
def goFields (s : String) : List String :=
  ((splitPredAux isGoSpace s.data).filter (fun piece => !piece.isEmpty)).map String.mk

/-! ## Data model (`git.go`) -/

/-- GitCommit mirrors the Go struct of the same name: a commit together
with the Change-Id tokens extracted from its message. -/
structure GitCommit where
  hash : String
  subject : String
  message : String
  changeIDs : List String
deriving Repr, DecidableEq

/-- CommitAnalysis mirrors the Go struct: the result of `analyzeCommits`.
The Go `ConflictError` wraps an `error`; only its message text is
observable here. -/
structure CommitAnalysis where
  validCommits : List GitCommit
  firstConflict : Option GitCommit
  conflictError : Option String
deriving Repr, DecidableEq

/-- GitEnv packages the git subprocess primitives the engine consumes, as
pure functions of the command-line arguments the Go code passes.  A field
returning `Option String` yields the command's raw stdout, or `none` for a
non-zero exit status; `Bool` fields model commands run only for their exit
status. -/
structure GitEnv where
  /-- Exit status of `git show-ref --verify --quiet <ref>`. -/
  showRefExists : String → Bool
  /-- Stdout of `git log --format=%b <rev-or-range>`. -/
  logBodies : String → Option String
  /-- Stdout of `git merge-base <ref> <branch>`. -/
  mergeBase : String → String → Option String
  /-- Exit status of `git rev-parse --verify <rev>`. -/
  revParseOk : String → Bool
  /-- Exit status of the capability probe `git merge-tree --write-tree <ref> <ref>`. -/
  mergeTreeProbe : String → Bool
  /-- Stdout of `git merge-tree --write-tree --merge-base <mb> <a> <b>`;
  `none` models the non-zero exit status a conflict produces. -/
  mergeTree : String → String → String → Option String
  /-- Stdout of `git rev-parse <arg>`. -/
  revParse : String → Option String
  /-- Stdout of `git commit-tree <tree> -p <parent> -m temp`. -/
  commitTree : String → String → Option String
  /-- Stdout of `git rev-parse --short <hash>`. -/
  revParseShort : String → Option String
  /-- Stdout of `git log -1 --format=%s%n%b <hash>`. -/
  logSubjectBody : String → Option String
  /-- Stdout of `git rev-list --reverse <range>`. -/
  revListReverse : String → Option String

/-! ## ChangeIdIndex (`git.go`) -/

/-- Loop body of extractChangeIDs: trim the line, case-fold it, and when
it starts with `change-id: ` (the 11-byte prefix, colon-space included)
append the trimmed remainder of the original-case line unless empty. -/
def extractChangeIDsStep (changeIDs : List String) (line : String) : List String :=
  let line := goTrimSpace line
  let lowerLine := goToLower line
  if !(strHasPre lowerLine "change-id: ") then changeIDs
  else
    let changeID := goTrimSpace (goDrop line 11)
    if changeID != "" then changeIDs ++ [changeID] else changeIDs

/-- extractChangeIDs translates the Go function of the same name: fold the
collection loop over the lines of `text`. -/
def extractChangeIDs (text : String) : List String :=
  (goStringsLines text).foldl extractChangeIDsStep []

/-- findMainBranch's fixed candidate list. -/
def mainBranchCandidates : List String :=
  ["main", "master", "trunk", "develop", "default", "stable"]

/-- findMainBranch: first candidate whose head ref exists. -/
def findMainBranch (env : GitEnv) : Option String :=
  mainBranchCandidates.find? (fun branch => env.showRefExists ("refs/heads/" ++ branch))

/-- normalizeSketchBranch ensures the branch name has the `sketch/` prefix. -/
def normalizeSketchBranch (branch : String) : String :=
  if strHasPre branch "sketch/" then branch else "sketch/" ++ branch

/-- logRangeArg is the revision argument `getChangeIDsInRef` hands to
`git log --format=%b`: the bare ref without a source branch or when the
merge-base computation fails, `mergeBase^..ref` when the merge-base has a
parent, and `mergeBase..ref` when it is a root commit. -/
def logRangeArg (env : GitEnv) (ref sourceBranch : String) : String :=
  if sourceBranch == "" then ref
  else
    match env.mergeBase ref sourceBranch with
    | none => ref
    | some mergeBaseOutput =>
      let mergeBase := goTrimSpace mergeBaseOutput
      if env.revParseOk (mergeBase ++ "^") then mergeBase ++ "^.." ++ ref
      else mergeBase ++ ".." ++ ref

/-- getChangeIDsInRef: all Change-Id tokens in the chosen window of `ref`'s
history.  The Go function stores the tokens in a `map[string]bool`; the
token list returned here is queried only through membership, which agrees
with the set. -/
def getChangeIDsInRef (env : GitEnv) (ref sourceBranch : String) : Option (List String) :=
  match env.logBodies (logRangeArg env ref sourceBranch) with
  | none => none
  | some output => some (extractChangeIDs output)

/-- shortHash: abbreviate via `git rev-parse --short`, falling back to the
first 8 bytes on failure. -/
def shortHash (env : GitEnv) (hash : String) : String :=
  match env.revParseShort hash with
  | none => if hash.length > 8 then String.mk (hash.data.take 8) else hash
  | some output => goTrimSpace output

/-- getCommitInfo: subject, full message and extracted Change-Id tokens of
one commit, from `git log -1 --format=%s%n%b`. -/
def getCommitInfo (env : GitEnv) (hash : String) : Option GitCommit :=
  match env.logSubjectBody hash with
  | none => none
  | some output =>
    let message := output
    let lines := splitOnNewline message
    let subject := match lines with
      | [] => ""
      | firstLine :: _ => firstLine
    some ⟨hash, subject, message, extractChangeIDs message⟩

/-- getCommitsInBranch: the commits reachable from the branch but not from
the detected main branch, oldest first. -/
def getCommitsInBranch (env : GitEnv) (branchName : String) : Option (List GitCommit) :=
  match findMainBranch env with
  | none => none
  | some mainBranch =>
    match env.revListReverse (mainBranch ++ ".." ++ branchName) with
    | none => none
    | some output => (goFields output).mapM (fun hash => getCommitInfo env hash)

/-! ## Token filtering (`operations.go`) -/

/-- filterNewCommits keeps the commits none of whose Change-Id tokens is
already in main.  The Go `quiet` parameter only controls progress printing
and is omitted. -/
def filterNewCommits (commits : List GitCommit) (mainChangeIDs : List String) : List GitCommit :=
  commits.foldl
    (fun newCommits commit =>
      let isInMain := commit.changeIDs.any (fun changeID => mainChangeIDs.contains changeID)
      if commit.changeIDs.length == 0 || !isInMain then newCommits ++ [commit]
      else newCommits)
    []

/-! ## CommitAnalyzer (`git.go`, analyzeCommits) -/

/-- Diagnostic text for a merge-tree failure (the Go message additionally
wraps the subprocess error, which is not observable here). -/
def mergeConflictMessage (pos total : Nat) (short subject : String) : String :=
  "merge conflict detected for commit " ++ toString pos ++ "/" ++ toString total ++
    " (" ++ short ++ " " ++ subject ++ ")"

/-- Diagnostic text for an empty merge-tree output. -/
def emptyTreeMessage (pos total : Nat) (short subject : String) : String :=
  "unexpected empty output from merge-tree for commit " ++ toString pos ++ "/" ++
    toString total ++ " (" ++ short ++ " " ++ subject ++ ")"

/-- Outcome of one iteration of the `analyzeCommits` loop body. -/
inductive StepOutcome where
  | conflict (message : String)
  | next (validCommits : List GitCommit) (currentBase : String)
deriving Repr

/-- analyzeStep is the body of the `analyzeCommits` loop for one commit:
simulate the cherry-pick with `git merge-tree --write-tree --merge-base
hash^ currentBase hash`, detect conflicts and empty results, and advance
the accumulator exactly as the Go code does. -/
def analyzeStep (env : GitEnv) (pos total : Nat) (validCommits : List GitCommit)
    (commit : GitCommit) (currentBase : String) : StepOutcome :=
  match env.mergeTree (commit.hash ++ "^") currentBase commit.hash with
  | none =>
    .conflict (mergeConflictMessage pos total (shortHash env commit.hash) commit.subject)
  | some output =>
    let treeOID := goTrimSpace output
    if treeOID == "" then
      .conflict (emptyTreeMessage pos total (shortHash env commit.hash) commit.subject)
    else
      let validCommits' :=
        match env.revParse (currentBase ++ "^\x7btree\x7d") with
        | none => validCommits ++ [commit]
        | some baseTreeOutput =>
          if goTrimSpace baseTreeOutput == treeOID then validCommits
          else validCommits ++ [commit]
      let currentBase' :=
        match validCommits'.getLast? with
        | none => currentBase
        | some lastValid =>
          if lastValid.hash == commit.hash then
            match env.commitTree treeOID currentBase with
            | none => commit.hash
            | some tempCommitOutput => goTrimSpace tempCommitOutput
          else currentBase
      .next validCommits' currentBase'

/-- State of the `analyzeCommits` loop after consuming a prefix of the
filtered commits: the Go loop's `analysis` fields plus `currentBase`. -/
structure AnalyzeResult where
  validCommits : List GitCommit
  firstConflict : Option GitCommit
  conflictError : Option String
  currentBase : String
deriving Repr, DecidableEq

/-- analyzeLoop runs the `analyzeCommits` loop over the remaining commits;
`idx` is the Go loop index `i`. -/
def analyzeLoop (env : GitEnv) (total : Nat) :
    List GitCommit → Nat → List GitCommit → String → AnalyzeResult
  | [], _, validCommits, currentBase => ⟨validCommits, none, none, currentBase⟩
  | commit :: rest, idx, validCommits, currentBase =>
    match analyzeStep env (idx + 1) total validCommits commit currentBase with
    | .conflict message => ⟨validCommits, some commit, some message, currentBase⟩
    | .next validCommits' currentBase' =>
      analyzeLoop env total rest (idx + 1) validCommits' currentBase'

/-- analyzeCommits translates the Go function: fetch main's Change-Id set,
token-filter, return early when nothing is left, degrade to the filtered
list when the merge-tree capability probe fails, otherwise run the
sequential conflict/empty analysis. -/
def analyzeCommits (env : GitEnv) (commits : List GitCommit) (mainRef sourceBranch : String) :
    Option CommitAnalysis :=
  match getChangeIDsInRef env mainRef sourceBranch with
  | none => none
  | some mainChangeIDs =>
    let commitsAfterChangeIdFilter := filterNewCommits commits mainChangeIDs
    if commitsAfterChangeIdFilter.length == 0 then
      some ⟨[], none, none⟩
    else if !(env.mergeTreeProbe mainRef) then
      some ⟨commitsAfterChangeIdFilter, none, none⟩
    else
      let result := analyzeLoop env commitsAfterChangeIdFilter.length
        commitsAfterChangeIdFilter 0 [] mainRef
      some ⟨result.validCommits, result.firstConflict, result.conflictError⟩

/-! ## StatusClassifier (`operations.go`, getRebaseLandStatus) -/

/-- getRebaseLandStatus classifies a branch as ERROR / EMPTY / CONFLICT /
LANDED / CLEAN, following the Go control flow.  The Go count loop over the
original commit list (with an inner break) is `countP` of the
any-token-matches predicate. -/
def getRebaseLandStatus (env : GitEnv) (branchName : String) : String :=
  match getCommitsInBranch env branchName with
  | none => "ERROR"
  | some commits =>
    if commits.length == 0 then "EMPTY"
    else
      match findMainBranch env with
      | none => "ERROR"
      | some mainBranch =>
        match analyzeCommits env commits mainBranch branchName with
        | none => "ERROR"
        | some analysis =>
          if analysis.firstConflict.isSome then "CONFLICT"
          else if analysis.validCommits.length == 0 then
            match getChangeIDsInRef env mainBranch branchName with
            | none => "ERROR"
            | some mainChangeIDs =>
              let changeIdFiltered := commits.countP
                (fun commit => commit.changeIDs.any
                  (fun changeID => mainChangeIDs.contains changeID))
              if changeIdFiltered == commits.length then "LANDED" else "EMPTY"
          else "CLEAN"

/-! ## Squash-message synthesis (`operations.go`, part of LandingExecutor) -/

/-- Union (with duplicates) of the commits' Change-Id tokens, as
`squashLastCommits` accumulates it before validating the LLM response. -/
def allChangeIDs (commits : List GitCommit) : List String :=
  commits.foldl (fun acc commit => acc ++ commit.changeIDs) []

/-- Key set of the Go `changeIDSet` map in insertion order: the
de-duplicated union of the commits' Change-Id tokens. -/
def dedupChangeIDs (commits : List GitCommit) : List String :=
  ((commits.map GitCommit.changeIDs).flatten).eraseDups

/-- Fixed part of the combined squash message: first subject, blank line,
`Squashed N commits:` enumeration, blank line — everything
`createCombinedCommitMessage` appends before the Change-Id trailers. -/
def combinedMessagePre (env : GitEnv) (commits : List GitCommit) : List String :=
  (match commits with
   | [] => []
   | first :: _ => [first.subject, ""])
  ++ [("Squashed " ++ toString commits.length ++ " commits:")]
  ++ (commits.enum.map (fun p =>
        toString (p.1 + 1) ++ ". " ++ p.2.subject ++ " (" ++ shortHash env p.2.hash ++ ")"))
  ++ [""]

/-- createCombinedCommitMessage, with the iteration order of the Go
`for changeID := range changeIDSet` made explicit: Go map range order is
unspecified (and randomized per process), so the order is a parameter; a
real invocation corresponds to some `changeIdOrder` that is a permutation
of `dedupChangeIDs commits`. -/
def createCombinedCommitMessageWith (env : GitEnv) (commits : List GitCommit)
    (changeIdOrder : List String) : String :=
  String.intercalate "\n"
    (combinedMessagePre env commits ++ changeIdOrder.map (fun changeID => "Change-Id: " ++ changeID))

/-! ## LLM response validation (llm drafting helper file) -/

/-- Failure reasons of `validateLLMResponse`.  The Go function formats the
missing tokens into the error text by iterating a map; only the
success/failure of validation is consumed by the caller, so the payload
here keeps the expected-token order. -/
inductive LLMValidationError where
  | emptyMessage
  | missingSubject
  | missingChangeIDs (missing : List String)
deriving Repr, DecidableEq

/-- validateLLMResponse: the drafted message must have a non-blank first
line and must carry (as extracted Change-Id trailers) every expected
token.  `none` means the response is accepted. -/
def validateLLMResponse (response : String) (expectedChangeIDs : List String) :
    Option LLMValidationError :=
  match splitOnNewline response with
  | [] => some .emptyMessage
  | firstLine :: _ =>
    if goTrimSpace firstLine == "" then some .missingSubject
    else
      let responseChangeIDs := extractChangeIDs response
      let missing := expectedChangeIDs.filter
        (fun changeID => !(responseChangeIDs.contains changeID))
      if missing.length > 0 then some (.missingChangeIDs missing) else none

/-- chooseSquashMessage models the combined-message selection inside
`squashLastCommits`: the external `generateLLMCommitMessage` call is
represented by its outcome `llmResult` (`none` = service error), and any
validation failure falls back to the deterministic synthesis.  The
function is total: no error escapes the drafting path. -/
def chooseSquashMessage (env : GitEnv) (commits : List GitCommit) (useLLM : Bool)
    (llmResult : Option String) (changeIdOrder : List String) : String :=
  if useLLM then
    match llmResult with
    | none => createCombinedCommitMessageWith env commits changeIdOrder
    | some llmMessage =>
      match validateLLMResponse llmMessage (allChangeIDs commits) with
      | some _ => createCombinedCommitMessageWith env commits changeIdOrder
      | none => llmMessage
  else createCombinedCommitMessageWith env commits changeIdOrder

/-! ## Repository semantics for the log format strings (claim C10) -/

/-- A commit as stored in a modelled repository: subject line and body. -/
structure RepoCommit where
  subject : String
  body : String
deriving Repr, DecidableEq

/-- Output of `git log --format=%b <ref>`: each commit's body followed by a
newline. -/
def refBodiesLog (commits : List RepoCommit) : String :=
  String.join (commits.map (fun c => c.body ++ "\n"))

/-- Output of `git log -1 --format=%s%n%b <hash>`: subject, newline, body,
newline. -/
def subjectBodyLog (c : RepoCommit) : String :=
  c.subject ++ "\n" ++ c.body ++ "\n"

/-- A GitEnv whose log primitives are derived from a modelled repository:
`refCommits` lists the commits reachable from a rev argument, `commitOf`
resolves a hash.  The remaining primitives are irrelevant to the claims
settled against this environment. -/
def repoEnv (refCommits : String → List RepoCommit) (commitOf : String → Option RepoCommit) :
    GitEnv where
  showRefExists := fun _ => false
  logBodies := fun arg => some (refBodiesLog (refCommits arg))
  mergeBase := fun _ _ => none
  revParseOk := fun _ => false
  mergeTreeProbe := fun _ => false
  mergeTree := fun _ _ _ => none
  revParse := fun _ => none
  commitTree := fun _ _ => none
  revParseShort := fun _ => none
  logSubjectBody := fun hash => (commitOf hash).map subjectBodyLog
  revListReverse := fun _ => none

/-! ## Specification-side definitions and concrete fixtures -/

/-- Declarative per-line form of the extraction rule implemented by
`extractChangeIDsStep` below (via `extractChangeIDs`): the token of a line
whose trimmed, case-folded form starts with the 11-character prefix
`change-id: `, when the trimmed remainder is non-empty. -/
def changeIdOfLine (line : String) : Option String :=
  let trimmed := goTrimSpace line
  if strHasPre (goToLower trimmed) "change-id: " then
    let changeID := goTrimSpace (goDrop trimmed 11)
    if changeID == "" then none else some changeID
  else none

/-- Per-line extraction rule as the claim words it: case-insensitive
prefix `Change-Id:` with no required space, the token being the trimmed
remainder after the 10-character prefix. -/
def changeIdOfLineClaim (line : String) : Option String :=
  let trimmed := goTrimSpace line
  if strHasPre (goToLower trimmed) "change-id:" then
    let changeID := goTrimSpace (goDrop trimmed 10)
    if changeID == "" then none else some changeID
  else none

/-- Extraction as described by the claim (prefix `Change-Id:` without a
mandatory space after the colon). -/
def extractChangeIDsClaim (text : String) : List String :=
  (goStringsLines text).filterMap changeIdOfLineClaim

/-- Keep-predicate of `filterNewCommits`: no token, or no token already in
main. -/
def keepsCommit (mainChangeIDs : List String) (commit : GitCommit) : Bool :=
  commit.changeIDs.length == 0 ||
    !(commit.changeIDs.any (fun changeID => mainChangeIDs.contains changeID))

/-- The two ways one iteration of the `analyzeCommits` loop records a
conflict: the merge-tree call exits non-zero, or its output trims to the
empty string. -/
def mergeSimFails (env : GitEnv) (commit : GitCommit) (currentBase : String) : Prop :=
  env.mergeTree (commit.hash ++ "^") currentBase commit.hash = none ∨
    ∃ output, env.mergeTree (commit.hash ++ "^") currentBase commit.hash = some output ∧
      goTrimSpace output = ""

/-- An environment in which every git primitive fails; used to instantiate
theorems whose conclusions do not depend on the primitives. -/
def envTrivial : GitEnv where
  showRefExists := fun _ => false
  logBodies := fun _ => none
  mergeBase := fun _ _ => none
  revParseOk := fun _ => false
  mergeTreeProbe := fun _ => false
  mergeTree := fun _ _ _ => none
  revParse := fun _ => none
  commitTree := fun _ _ => none
  revParseShort := fun _ => none
  logSubjectBody := fun _ => none
  revListReverse := fun _ => none

/-- First commit of the conflict fixture: its simulated cherry-pick yields
exactly the base tree, so the analyzer classifies it as a no-op. -/
def gcA : GitCommit := ⟨"c1", "first commit", "first commit\n", []⟩

/-- Second commit of the conflict fixture: its merge-tree call fails. -/
def gcB : GitCommit := ⟨"c2", "second commit", "second commit\n", []⟩

/-- Environment for the conflict fixture: main carries no Change-Id
tokens, the merge-tree capability is available, commit `c1` merges to the
tree main already has (`T0`), and commit `c2` conflicts. -/
def envConflict : GitEnv where
  showRefExists := fun _ => false
  logBodies := fun _ => some ""
  mergeBase := fun _ _ => none
  revParseOk := fun _ => false
  mergeTreeProbe := fun _ => true
  mergeTree := fun _ _ hash => if hash == "c1" then some "T0\n" else none
  revParse := fun arg => if arg == "main^\x7btree\x7d" then some "T0\n" else none
  commitTree := fun _ _ => none
  revParseShort := fun _ => none
  logSubjectBody := fun _ => none
  revListReverse := fun _ => none

/-- Result of analyzing the conflict fixture. -/
def analysisConflict : CommitAnalysis :=
  ⟨[], some gcB, some (mergeConflictMessage 2 2 "c2" "second commit")⟩

/-- A commit whose Change-Id token is already on main in the degraded
fixture. -/
def gcTok : GitCommit := ⟨"a1", "landed commit", "landed commit\n\nChange-Id: I1\n", ["I1"]⟩

/-- A commit with no Change-Id token in the degraded fixture. -/
def gcNoTok : GitCommit := ⟨"a2", "fresh commit", "fresh commit\n", []⟩

/-- Environment for the degraded fixture: main's log carries token `I1`
and the merge-tree capability probe fails. -/
def envDegraded : GitEnv where
  showRefExists := fun _ => false
  logBodies := fun _ => some "Change-Id: I1\n"
  mergeBase := fun _ _ => none
  revParseOk := fun _ => false
  mergeTreeProbe := fun _ => false
  mergeTree := fun _ _ _ => none
  revParse := fun _ => none
  commitTree := fun _ _ => none
  revParseShort := fun _ => none
  logSubjectBody := fun _ => none
  revListReverse := fun _ => none

/-- The one commit of the status fixture, already landed by token. -/
def gcLanded : GitCommit := ⟨"b1", "landed", "landed\n\nChange-Id: I1\n", ["I1"]⟩

/-- Environment for the status fixture: branch `sketch/w` has the single
commit `b1` whose token `I1` is already on main. -/
def envStatus : GitEnv where
  showRefExists := fun ref => ref == "refs/heads/main"
  logBodies := fun _ => some "Change-Id: I1\n"
  mergeBase := fun _ _ => none
  revParseOk := fun _ => false
  mergeTreeProbe := fun _ => false
  mergeTree := fun _ _ _ => none
  revParse := fun _ => none
  commitTree := fun _ _ => none
  revParseShort := fun _ => none
  logSubjectBody := fun hash => if hash == "b1" then some "landed\n\nChange-Id: I1\n" else none
  revListReverse := fun range => if range == "main..sketch/w" then some "b1\n" else none

/-- Squash fixture, first commit. -/
def gcOne : GitCommit := ⟨"h1", "s1", "", ["IA"]⟩

/-- Squash fixture, second commit. -/
def gcTwo : GitCommit := ⟨"h2", "s2", "", ["IB"]⟩

/-- Squash fixture: two commits with distinct Change-Id tokens. -/
def squashPair : List GitCommit := [gcOne, gcTwo]

/-- A repository commit whose Change-Id trailer sits in the subject line
and whose body is empty. -/
def subjectOnlyCommit : RepoCommit := ⟨"Change-Id: Ix1", ""⟩

/-- Ref table of the asymmetry fixture: `main` consists of the
subject-only commit. -/
def rcAsym : String → List RepoCommit :=
  fun ref => if ref == "main" then [subjectOnlyCommit] else []

/-- Hash table of the asymmetry fixture: `h1` resolves to the subject-only
commit. -/
def coAsym : String → Option RepoCommit :=
  fun hash => if hash == "h1" then some subjectOnlyCommit else none

/-- What `getCommitInfo` computes for the subject-only commit: the
`%s%n%b` format sees the subject line, so the token is extracted. -/
def gcAsym : GitCommit := ⟨"h1", "Change-Id: Ix1", "Change-Id: Ix1\n\n", ["Ix1"]⟩

/-- Witness ref table: one commit with subject `s one`. -/
def rcSubjOne : String → List RepoCommit := fun _ => [⟨"s one", "Change-Id: Iw"⟩]

/-- Witness ref table: same body as `rcSubjOne` under a different
subject. -/
def rcSubjTwo : String → List RepoCommit := fun _ => [⟨"s two", "Change-Id: Iw"⟩]

/-! ## Helper lemmas: Go string primitives -/

/-- listIsPre decides list-prefixhood. -/
theorem listIsPre_iff : ∀ (pre l : List Char), listIsPre pre l = true ↔ pre <+: l
  | [], l => by simp [listIsPre]
  | a :: as, [] => by simp [listIsPre]
  | a :: as, b :: bs => by
    simp [listIsPre, List.cons_prefix_cons, listIsPre_iff as bs, and_comm]

/-- Character data of a trimmed string. -/
theorem goTrimSpace_data (s : String) :
    (goTrimSpace s).data = ((s.data.dropWhile isGoSpace).reverse.dropWhile isGoSpace).reverse :=
  rfl

/-- Trimming yields a contiguous part of the original string. -/
theorem goTrimSpace_data_part (s : String) : (goTrimSpace s).data <:+: s.data := by
  rw [goTrimSpace_data]
  have h1 : s.data.dropWhile isGoSpace <:+ s.data := List.dropWhile_suffix isGoSpace
  have h2 : ((s.data.dropWhile isGoSpace).reverse.dropWhile isGoSpace).reverse <+:
      s.data.dropWhile isGoSpace := by
    rw [← List.reverse_suffix, List.reverse_reverse]
    exact List.dropWhile_suffix isGoSpace
  exact h2.isInfix.trans h1.isInfix

/-- Character data of a dropped string. -/
theorem goDrop_data (s : String) (n : Nat) : (goDrop s n).data = s.data.drop n := rfl

/-- Dropping yields a contiguous part of the original string. -/
theorem goDrop_data_part (s : String) (n : Nat) : (goDrop s n).data <:+: s.data := by
  rw [goDrop_data]
  exact (List.drop_suffix n s.data).isInfix

/-- splitPredAux always yields at least one piece, and the first piece is a
prefix of the input. -/
theorem splitPredAux_head_pre (p : Char → Bool) :
    ∀ l : List Char, ∃ piece rest, splitPredAux p l = piece :: rest ∧ piece <+: l
  | [] => ⟨[], [], rfl, List.nil_prefix⟩
  | c :: cs => by
    by_cases hc : p c
    · exact ⟨[], splitPredAux p cs, by simp [splitPredAux, hc], List.nil_prefix⟩
    · obtain ⟨piece, rest, heq, hpre⟩ := splitPredAux_head_pre p cs
      refine ⟨c :: piece, rest, ?_, ?_⟩
      · simp [splitPredAux, hc, heq]
      · exact List.cons_prefix_cons.mpr ⟨rfl, hpre⟩

/-- Every piece of splitPredAux is a contiguous part of the input. -/
theorem splitPredAux_mem_part (p : Char → Bool) :
    ∀ (l : List Char) (piece : List Char), piece ∈ splitPredAux p l → piece <:+: l
  | [], piece, h => by
    simp [splitPredAux] at h
    simp [h]
  | c :: cs, piece, h => by
    by_cases hc : p c
    · simp [splitPredAux, hc] at h
      rcases h with h | h
      · simp [h]
      · exact (splitPredAux_mem_part p cs piece h).trans (List.suffix_cons c cs).isInfix
    · obtain ⟨hp, hr, heq, hpre⟩ := splitPredAux_head_pre p cs
      simp [splitPredAux, hc, heq] at h
      rcases h with h | h
      · subst h
        exact (List.cons_prefix_cons.mpr ⟨rfl, hpre⟩).isInfix
      · have : piece ∈ splitPredAux p cs := by rw [heq]; exact List.mem_cons_of_mem _ h
        exact (splitPredAux_mem_part p cs piece this).trans (List.suffix_cons c cs).isInfix

/-- Every line yielded by goStringsLines is a contiguous part of the
text. -/
theorem goStringsLines_mem_part (s line : String) (h : line ∈ goStringsLines s) :
    line.data <:+: s.data := by
  unfold goStringsLines at h
  have hmem : line ∈ splitOnNewline s := by
    by_cases hl : (splitOnNewline s).getLast? == some ""
    · simp only [hl, if_pos rfl] at h
      exact (List.dropLast_sublist (splitOnNewline s)).mem h
    · simpa [hl] using h
  unfold splitOnNewline at hmem
  obtain ⟨piece, hpiece, hmk⟩ := List.mem_map.mp hmem
  have : line.data = piece := by rw [← hmk]
  rw [this]
  exact splitPredAux_mem_part _ _ piece hpiece

/-! ## Helper lemmas: extraction -/

/-- One extraction-loop iteration appends the declarative per-line token,
if any. -/
theorem extract_step_eq (acc : List String) (line : String) :
    extractChangeIDsStep acc line = acc ++ (changeIdOfLine line).toList := by
  unfold extractChangeIDsStep changeIdOfLine
  by_cases hpre : strHasPre (goToLower (goTrimSpace line)) "change-id: "
  · by_cases hid : goTrimSpace (goDrop (goTrimSpace line) 11) = ""
    · simp [hpre, hid]
    · simp [hpre, hid]
  · simp [hpre]

/-- The extraction loop is the filterMap of the declarative per-line
rule. -/
theorem extract_fold_eq (lines : List String) :
    ∀ acc : List String,
      lines.foldl extractChangeIDsStep acc = acc ++ lines.filterMap changeIdOfLine := by
  induction lines with
  | nil => intro acc; simp
  | cons l ls ih =>
    intro acc
    rw [List.foldl_cons, extract_step_eq acc l, ih, List.filterMap_cons]
    cases h : changeIdOfLine l <;> simp [h]

/-- extractChangeIDs equals the filterMap of the declarative per-line
rule. -/
theorem extractChangeIDs_eq_filterMap (text : String) :
    extractChangeIDs text = (goStringsLines text).filterMap changeIdOfLine := by
  unfold extractChangeIDs
  rw [extract_fold_eq]
  simp

/-- An accepted line determines its token and the token is non-empty. -/
theorem changeIdOfLine_some (line changeID : String)
    (h : changeIdOfLine line = some changeID) :
    changeID = goTrimSpace (goDrop (goTrimSpace line) 11) ∧ changeID ≠ "" := by
  unfold changeIdOfLine at h
  by_cases hpre : strHasPre (goToLower (goTrimSpace line)) "change-id: "
  · by_cases hid : goTrimSpace (goDrop (goTrimSpace line) 11) = ""
    · simp [hpre, hid] at h
    · simp only [hpre, if_true, beq_iff_eq, hid, if_false, Option.some.injEq] at h
      exact ⟨h.symm, h ▸ hid⟩
  · simp [hpre] at h

/-- A line's extracted token occurs contiguously in the line. -/
theorem changeIdOfLine_part (line changeID : String)
    (h : changeIdOfLine line = some changeID) : changeID.data <:+: line.data := by
  rw [(changeIdOfLine_some line changeID h).1]
  exact (goTrimSpace_data_part _).trans
    ((goDrop_data_part _ _).trans (goTrimSpace_data_part _))

/-- Every extracted token occurs verbatim (contiguously) in the text, and
is non-empty. -/
theorem extractChangeIDs_mem_part (text changeID : String)
    (h : changeID ∈ extractChangeIDs text) :
    changeID.data <:+: text.data ∧ changeID ≠ "" := by
  rw [extractChangeIDs_eq_filterMap] at h
  obtain ⟨line, hline, hsome⟩ := List.mem_filterMap.mp h
  exact ⟨(changeIdOfLine_part line changeID hsome).trans (goStringsLines_mem_part text line hline),
    (changeIdOfLine_some line changeID hsome).2⟩

/-! ## Helper lemmas: token filtering -/

/-- The filtering loop is a filter by the keep-predicate. -/
theorem filter_fold_eq (ids : List String) (commits : List GitCommit) :
    ∀ acc : List GitCommit,
      commits.foldl
        (fun newCommits commit =>
          let isInMain := commit.changeIDs.any (fun changeID => ids.contains changeID)
          if commit.changeIDs.length == 0 || !isInMain then newCommits ++ [commit]
          else newCommits) acc =
        acc ++ commits.filter (keepsCommit ids) := by
  induction commits with
  | nil => intro acc; simp
  | cons c cs ih =>
    intro acc
    rw [List.foldl_cons]
    by_cases hc : keepsCommit ids c
    · rw [List.filter_cons_of_pos hc]
      have : (if c.changeIDs.length == 0 ||
          !(c.changeIDs.any fun changeID => ids.contains changeID) then acc ++ [c]
          else acc) = acc ++ [c] := by
        unfold keepsCommit at hc
        simp only [hc, if_true]
      simp only [this, ih]
      simp
    · rw [List.filter_cons_of_neg hc]
      have : (if c.changeIDs.length == 0 ||
          !(c.changeIDs.any fun changeID => ids.contains changeID) then acc ++ [c]
          else acc) = acc := by
        unfold keepsCommit at hc
        simp only [Bool.not_eq_true] at hc
        simp only [hc]
        simp
      simp only [this, ih]

/-- filterNewCommits is the filter by the keep-predicate. -/
theorem filterNewCommits_eq_filter (commits : List GitCommit) (ids : List String) :
    filterNewCommits commits ids = commits.filter (keepsCommit ids) := by
  unfold filterNewCommits
  rw [filter_fold_eq]
  simp

/-- A commit with a token already in main is not kept. -/
theorem keepsCommit_false_of_inter (ids : List String) (c : GitCommit)
    (h : ∃ t ∈ c.changeIDs, t ∈ ids) : keepsCommit ids c = false := by
  obtain ⟨t, ht, htm⟩ := h
  unfold keepsCommit
  have hlen : (c.changeIDs.length == 0) = false := by
    cases hcs : c.changeIDs with
    | nil => rw [hcs] at ht; exact absurd ht (List.not_mem_nil t)
    | cons a as => simp [hcs]
  have hany : c.changeIDs.any (fun changeID => ids.contains changeID) = true :=
    List.any_eq_true.mpr ⟨t, ht, List.elem_iff.mpr htm⟩
  rw [hlen, hany]
  rfl

/-- A commit with no tokens is kept. -/
theorem keepsCommit_true_of_nil (ids : List String) (c : GitCommit)
    (h : c.changeIDs = []) : keepsCommit ids c = true := by
  unfold keepsCommit
  rw [h]
  rfl

/-- Count-equals-length matches the all-predicate. -/
theorem countP_beq_length_eq_all {α : Type} (p : α → Bool) (l : List α) :
    (l.countP p == l.length) = l.all p := by
  by_cases h : l.all p
  · rw [h, List.countP_eq_length.mpr (List.all_eq_true.mp h)]
    simp
  · have hne : l.countP p ≠ l.length := by
      intro hc
      exact h (List.all_eq_true.mpr (List.countP_eq_length.mp hc))
    simp only [Bool.not_eq_true] at h
    rw [h]
    exact beq_eq_false_iff_ne.mpr hne

/-! ## Helper lemmas: the analyzer loop -/

/-- A successful step either keeps the valid list or appends the current
commit. -/
theorem analyzeStep_next_valid (env : GitEnv) (pos total : Nat) (valid : List GitCommit)
    (commit : GitCommit) (base : String) (valid' : List GitCommit) (base' : String)
    (h : analyzeStep env pos total valid commit base = .next valid' base') :
    valid' = valid ∨ valid' = valid ++ [commit] := by
  unfold analyzeStep at h
  cases hm : env.mergeTree (commit.hash ++ "^") base commit.hash with
  | none => rw [hm] at h; exact absurd h (by simp)
  | some output =>
    rw [hm] at h
    by_cases ht : goTrimSpace output == ""
    · simp only [ht, if_true] at h
      exact absurd h (by simp)
    · simp only [ht, if_false, Bool.false_eq_true, StepOutcome.next.injEq] at h
      cases hr : env.revParse (base ++ "^\x7btree\x7d") with
      | none =>
        rw [hr] at h
        exact Or.inr h.1.symm
      | some baseTreeOutput =>
        rw [hr] at h
        by_cases hb : goTrimSpace baseTreeOutput == goTrimSpace output
        · simp only [hb, if_true] at h
          exact Or.inl h.1.symm
        · simp only [hb, if_false, Bool.false_eq_true] at h
          exact Or.inr h.1.symm

/-- A step records a conflict exactly when the merge simulation fails. -/
theorem analyzeStep_conflict_iff (env : GitEnv) (pos total : Nat) (valid : List GitCommit)
    (commit : GitCommit) (base : String) :
    (∃ message, analyzeStep env pos total valid commit base = .conflict message) ↔
      mergeSimFails env commit base := by
  unfold analyzeStep mergeSimFails
  cases hm : env.mergeTree (commit.hash ++ "^") base commit.hash with
  | none => simp [hm]
  | some output =>
    by_cases ht : goTrimSpace output = ""
    · simp [hm, ht]
    · simp [hm, ht]

/-- The loop only ever appends to the valid list, and all appended commits
come from the remaining input, in order. -/
theorem analyzeLoop_valid_extend (env : GitEnv) (total : Nat) :
    ∀ (cs : List GitCommit) (idx : Nat) (valid : List GitCommit) (base : String),
      ∃ s, List.Sublist s cs ∧
        (analyzeLoop env total cs idx valid base).validCommits = valid ++ s
  | [], idx, valid, base => ⟨[], List.nil_sublist [], by simp [analyzeLoop]⟩
  | c :: rest, idx, valid, base => by
    cases hstep : analyzeStep env (idx + 1) total valid c base with
    | conflict message =>
      refine ⟨[], List.nil_sublist _, ?_⟩
      simp [analyzeLoop, hstep]
    | next valid' base' =>
      obtain ⟨s, hs, heq⟩ := analyzeLoop_valid_extend env total rest (idx + 1) valid' base'
      rcases analyzeStep_next_valid env (idx + 1) total valid c base valid' base' hstep with
        hv | hv
      · refine ⟨s, hs.cons c, ?_⟩
        simp only [analyzeLoop, hstep]
        rw [heq, hv]
      · refine ⟨c :: s, hs.cons₂ c, ?_⟩
        simp only [analyzeLoop, hstep]
        rw [heq, hv, List.append_assoc]
        rfl

/-- When the loop records a conflict, the input splits into a cleanly
analyzed prefix, the conflicting commit, and an unexamined remainder; the
valid list is the prefix's valid list and the conflicting commit's own
merge simulation fails against the base the prefix accumulated. -/
theorem analyzeLoop_conflict_split (env : GitEnv) (total : Nat) :
    ∀ (cs : List GitCommit) (idx : Nat) (valid : List GitCommit) (base : String)
      (c : GitCommit),
      (analyzeLoop env total cs idx valid base).firstConflict = some c →
      ∃ pre post,
        cs = pre ++ c :: post ∧
        (analyzeLoop env total pre idx valid base).firstConflict = none ∧
        (analyzeLoop env total cs idx valid base).validCommits =
          (analyzeLoop env total pre idx valid base).validCommits ∧
        mergeSimFails env c ((analyzeLoop env total pre idx valid base).currentBase)
  | [], idx, valid, base, c => by
    intro h
    exact absurd h (by simp [analyzeLoop])
  | c0 :: rest, idx, valid, base, c => by
    intro h
    cases hstep : analyzeStep env (idx + 1) total valid c0 base with
    | conflict message =>
      have hc : c = c0 := by
        simp only [analyzeLoop, hstep] at h
        exact (Option.some.inj h).symm
      subst hc
      refine ⟨[], rest, rfl, by simp [analyzeLoop], ?_, ?_⟩
      · simp [analyzeLoop, hstep]
      · have : (analyzeLoop env total [] idx valid base).currentBase = base := by
          simp [analyzeLoop]
        rw [this]
        exact (analyzeStep_conflict_iff env (idx + 1) total valid c base).mp ⟨message, hstep⟩
    | next valid' base' =>
      have hres : analyzeLoop env total (c0 :: rest) idx valid base =
          analyzeLoop env total rest (idx + 1) valid' base' := by
        simp [analyzeLoop, hstep]
      rw [hres] at h
      obtain ⟨pre, post, hsplit, hnone, hvalid, hfails⟩ :=
        analyzeLoop_conflict_split env total rest (idx + 1) valid' base' c h
      have hpre : analyzeLoop env total (c0 :: pre) idx valid base =
          analyzeLoop env total pre (idx + 1) valid' base' := by
        simp [analyzeLoop, hstep]
      refine ⟨c0 :: pre, post, by rw [hsplit]; rfl, ?_, ?_, ?_⟩
      · rw [hpre]; exact hnone
      · rw [hres, hpre]; exact hvalid
      · rw [hpre]; exact hfails

/-- Case analysis of analyzeCommits once the token fetch succeeded:
everything filtered, degraded mode, or the full loop. -/
theorem analyzeCommits_cases (env : GitEnv) (commits : List GitCommit)
    (mainRef sourceBranch : String) (mainChangeIDs : List String) (analysis : CommitAnalysis)
    (hIDs : getChangeIDsInRef env mainRef sourceBranch = some mainChangeIDs)
    (hA : analyzeCommits env commits mainRef sourceBranch = some analysis) :
    (filterNewCommits commits mainChangeIDs = [] ∧ analysis = ⟨[], none, none⟩) ∨
    (filterNewCommits commits mainChangeIDs ≠ [] ∧ env.mergeTreeProbe mainRef = false ∧
      analysis = ⟨filterNewCommits commits mainChangeIDs, none, none⟩) ∨
    (filterNewCommits commits mainChangeIDs ≠ [] ∧ env.mergeTreeProbe mainRef = true ∧
      analysis =
        ⟨(analyzeLoop env (filterNewCommits commits mainChangeIDs).length
            (filterNewCommits commits mainChangeIDs) 0 [] mainRef).validCommits,
         (analyzeLoop env (filterNewCommits commits mainChangeIDs).length
            (filterNewCommits commits mainChangeIDs) 0 [] mainRef).firstConflict,
         (analyzeLoop env (filterNewCommits commits mainChangeIDs).length
            (filterNewCommits commits mainChangeIDs) 0 [] mainRef).conflictError⟩) := by
  unfold analyzeCommits at hA
  rw [hIDs] at hA
  by_cases hlen : filterNewCommits commits mainChangeIDs = []
  · left
    refine ⟨hlen, ?_⟩
    simp only [hlen] at hA
    simpa using hA.symm
  · have hlen' : (List.length (filterNewCommits commits mainChangeIDs) == 0) = false := by
      simp [List.length_eq_zero, hlen]
    cases hprobe : env.mergeTreeProbe mainRef with
    | false =>
      right; left
      refine ⟨hlen, rfl, ?_⟩
      simp only [hlen', hprobe, Bool.false_eq_true, if_false, Bool.not_false, if_true] at hA
      exact (Option.some.inj hA).symm
    | true =>
      right; right
      refine ⟨hlen, rfl, ?_⟩
      simp only [hlen', hprobe, Bool.false_eq_true, if_false, Bool.not_true] at hA
      exact (Option.some.inj hA).symm

/-- Whatever path analyzeCommits takes, the valid commits form a sublist
of the token-filtered input. -/
theorem analyzeCommits_valid_sub (env : GitEnv) (commits : List GitCommit)
    (mainRef sourceBranch : String) (mainChangeIDs : List String) (analysis : CommitAnalysis)
    (hIDs : getChangeIDsInRef env mainRef sourceBranch = some mainChangeIDs)
    (hA : analyzeCommits env commits mainRef sourceBranch = some analysis) :
    List.Sublist analysis.validCommits (filterNewCommits commits mainChangeIDs) := by
  rcases analyzeCommits_cases env commits mainRef sourceBranch mainChangeIDs analysis hIDs hA with
    ⟨hf, ha⟩ | ⟨hf, hp, ha⟩ | ⟨hf, hp, ha⟩
  · rw [ha]
    exact List.nil_sublist _
  · rw [ha]
  · rw [ha]
    obtain ⟨s, hs, heq⟩ := analyzeLoop_valid_extend env
      (filterNewCommits commits mainChangeIDs).length
      (filterNewCommits commits mainChangeIDs) 0 [] mainRef
    simpa [heq] using hs

/-- Appending below a literal prefix satisfies the prefix test. -/
theorem strHasPre_append (pre b : String) : strHasPre (pre ++ b) pre = true := by
  unfold strHasPre
  rw [listIsPre_iff, String.data_append]
  exact List.prefix_append pre.data b.data

/-! ## Claim theorems -/

/-- C2: whenever `analyzeCommits` succeeds, a commit whose Change-Id
token set intersects the main ref's token set never appears in the
returned ValidCommits, and a commit with no Change-Id tokens is never
dropped by the token-filtering step (`filterNewCommits`). -/
theorem c2_token_filtering (env : GitEnv) (commits : List GitCommit)
    (mainRef sourceBranch : String) (analysis : CommitAnalysis) (mainChangeIDs : List String)
    (hIDs : getChangeIDsInRef env mainRef sourceBranch = some mainChangeIDs)
    (hA : analyzeCommits env commits mainRef sourceBranch = some analysis) :
    (∀ c ∈ commits, (∃ t ∈ c.changeIDs, t ∈ mainChangeIDs) → c ∉ analysis.validCommits) ∧
    (∀ c ∈ commits, c.changeIDs = [] → c ∈ filterNewCommits commits mainChangeIDs) := by
  constructor
  · intro c _ hinter hmem
    have hsub := analyzeCommits_valid_sub env commits mainRef sourceBranch mainChangeIDs
      analysis hIDs hA
    have hmemf : c ∈ filterNewCommits commits mainChangeIDs := hsub.mem hmem
    rw [filterNewCommits_eq_filter] at hmemf
    have := (List.mem_filter.mp hmemf).2
    rw [keepsCommit_false_of_inter mainChangeIDs c hinter] at this
    exact absurd this (by simp)
  · intro c hc hnil
    rw [filterNewCommits_eq_filter]
    exact List.mem_filter.mpr ⟨hc, keepsCommit_true_of_nil mainChangeIDs c hnil⟩

/-- C2 witness: in the degraded fixture, the already-landed commit is
excluded from ValidCommits and the token-free commit is kept by the
filter. -/
theorem c2_witness :
    gcTok ∉ (CommitAnalysis.mk [gcNoTok] none none).validCommits ∧
    gcNoTok ∈ filterNewCommits [gcTok, gcNoTok] ["I1"] := by
  have h := c2_token_filtering envDegraded [gcTok, gcNoTok] "main" "" ⟨[gcNoTok], none, none⟩
    ["I1"] (by decide) (by decide)
  exact ⟨h.1 gcTok (by decide) ⟨"I1", by decide, by decide⟩, h.2 gcNoTok (by decide) (by decide)⟩

/-- C6: when the token fetch succeeds, the token-filtered list is
non-empty and the merge-tree capability probe fails, `analyzeCommits`
returns the token-filtered list as ValidCommits with no conflict and no
conflict diagnostic, as a successful (`some`) analysis. -/
theorem c6_degraded_mode (env : GitEnv) (commits : List GitCommit)
    (mainRef sourceBranch : String) (mainChangeIDs : List String)
    (hIDs : getChangeIDsInRef env mainRef sourceBranch = some mainChangeIDs)
    (hne : filterNewCommits commits mainChangeIDs ≠ [])
    (hprobe : env.mergeTreeProbe mainRef = false) :
    analyzeCommits env commits mainRef sourceBranch =
      some ⟨filterNewCommits commits mainChangeIDs, none, none⟩ := by
  unfold analyzeCommits
  rw [hIDs]
  have hlen : (List.length (filterNewCommits commits mainChangeIDs) == 0) = false := by
    simp [List.length_eq_zero, hne]
  simp [hlen, hprobe]

/-- C6 witness: the degraded fixture analysis returns the filtered list
with no conflict. -/
theorem c6_witness :
    analyzeCommits envDegraded [gcTok, gcNoTok] "main" "" = some ⟨[gcNoTok], none, none⟩ := by
  have h := c6_degraded_mode envDegraded [gcTok, gcNoTok] "main" "" ["I1"]
    (by decide) (by decide) rfl
  rw [h]
  decide

/-- C1 (amended): when `analyzeCommits` records a first conflict, the
token-filtered sequence splits at the conflicting commit; every
ValidCommit comes from strictly before the conflict (so no commit at or
after it is valid), the prefix before it was analyzed without conflict
(so no later failing commit could have been reported first), and the
conflicting commit's own merge simulation fails against the accumulated
base.  Commits before the conflict are not necessarily all in
ValidCommits: no-op (empty) commits among them are skipped. -/
theorem c1_conflict_position (env : GitEnv) (commits : List GitCommit)
    (mainRef sourceBranch : String) (analysis : CommitAnalysis)
    (mainChangeIDs : List String) (c : GitCommit)
    (hIDs : getChangeIDsInRef env mainRef sourceBranch = some mainChangeIDs)
    (hA : analyzeCommits env commits mainRef sourceBranch = some analysis)
    (hc : analysis.firstConflict = some c) :
    ∃ pre post,
      filterNewCommits commits mainChangeIDs = pre ++ c :: post ∧
      List.Sublist analysis.validCommits pre ∧
      (analyzeLoop env (pre ++ c :: post).length pre 0 [] mainRef).firstConflict = none ∧
      mergeSimFails env c
        ((analyzeLoop env (pre ++ c :: post).length pre 0 [] mainRef).currentBase) := by
  rcases analyzeCommits_cases env commits mainRef sourceBranch mainChangeIDs analysis hIDs hA with
    ⟨hf, ha⟩ | ⟨hf, hp, ha⟩ | ⟨hf, hp, ha⟩
  · rw [ha] at hc
    exact absurd hc (by simp)
  · rw [ha] at hc
    exact absurd hc (by simp)
  · rw [ha] at hc
    simp only at hc
    obtain ⟨pre, post, hsplit, hnone, hvalid, hfails⟩ :=
      analyzeLoop_conflict_split env (filterNewCommits commits mainChangeIDs).length
        (filterNewCommits commits mainChangeIDs) 0 [] mainRef c hc
    obtain ⟨s, hs, heq⟩ := analyzeLoop_valid_extend env
      (filterNewCommits commits mainChangeIDs).length pre 0 [] mainRef
    refine ⟨pre, post, hsplit, ?_, ?_, ?_⟩
    · have : analysis.validCommits = s := by
        rw [ha]
        simp only
        rw [hvalid, heq]
        simp
      rw [this]
      exact hs
    · rw [← hsplit]
      exact hnone
    · rw [← hsplit]
      exact hfails

/-- C1 counterexample: in the conflict fixture the analyzed sequence is
`[gcA, gcB]`, the recorded first conflict is `gcB`, and yet `gcA` — which
precedes the conflicting commit — is not in ValidCommits (its simulated
cherry-pick was a no-op and was skipped).  This refutes the claim's
conjunct that all commits before the conflicting commit are included in
ValidCommits. -/
theorem c1_counterexample :
    analyzeCommits envConflict [gcA, gcB] "main" "" = some analysisConflict ∧
    analysisConflict.firstConflict = some gcB ∧
    filterNewCommits [gcA, gcB] [] = [gcA] ++ gcB :: [] ∧
    gcA ∉ analysisConflict.validCommits := by
  refine ⟨by decide, by decide, by decide, by decide⟩

/-- C1 witness: the amended conflict-position theorem applied to the
conflict fixture. -/
theorem c1_witness :
    ∃ pre post,
      filterNewCommits [gcA, gcB] [] = pre ++ gcB :: post ∧
      List.Sublist analysisConflict.validCommits pre ∧
      (analyzeLoop envConflict (pre ++ gcB :: post).length pre 0 [] "main").firstConflict =
        none ∧
      mergeSimFails envConflict gcB
        ((analyzeLoop envConflict (pre ++ gcB :: post).length pre 0 [] "main").currentBase) :=
  c1_conflict_position envConflict [gcA, gcB] "main" "" analysisConflict [] gcB
    (by decide) (by decide) (by decide)

/-- C3 counterexample: on the line `Change-Id:token` (no space after the
colon) the code extracts nothing, while the claim's reading — any line
whose trimmed content has the case-insensitive prefix `Change-Id:` with a
non-empty token after the colon — extracts `token`. -/
theorem c3_counterexample :
    extractChangeIDs "Change-Id:token" = [] ∧
    extractChangeIDsClaim "Change-Id:token" = ["token"] := by
  refine ⟨by decide, by decide⟩

/-- C3 (amended): extractChangeIDs returns exactly the tokens of the
lines whose trimmed content has the case-insensitive prefix
`Change-Id: ` — colon followed by a space — in line order, each token
being the trimmed remainder after that prefix (original case preserved),
with lines whose remainder is empty ignored; in particular no extracted
token is empty. -/
theorem c3_extract_change_ids (text : String) :
    extractChangeIDs text = (goStringsLines text).filterMap changeIdOfLine ∧
    ∀ changeID ∈ extractChangeIDs text, changeID ≠ "" := by
  refine ⟨extractChangeIDs_eq_filterMap text, ?_⟩
  intro changeID hmem
  exact (extractChangeIDs_mem_part text changeID hmem).2

/-- C3 witness: the amended extraction theorem applied to a concrete
message. -/
theorem c3_witness :
    extractChangeIDs "subject\n\nChange-Id: I7\n" =
      (goStringsLines "subject\n\nChange-Id: I7\n").filterMap changeIdOfLine ∧
    ("I7" : String) ≠ "" :=
  ⟨(c3_extract_change_ids "subject\n\nChange-Id: I7\n").1,
   (c3_extract_change_ids "subject\n\nChange-Id: I7\n").2 "I7" (by decide)⟩

/-- C4: getRebaseLandStatus returns ERROR when commit retrieval or
main-branch resolution fails, EMPTY for a branch with zero commits
relative to main, and — when the analysis succeeds with no conflict and
an empty valid list over a non-empty commit list — LANDED exactly when
every original (unfiltered) commit has at least one token in main's token
set, EMPTY otherwise. -/
theorem c4_status_classifier (env : GitEnv) (branchName : String) :
    (getCommitsInBranch env branchName = none → getRebaseLandStatus env branchName = "ERROR") ∧
    (findMainBranch env = none → getRebaseLandStatus env branchName = "ERROR") ∧
    (getCommitsInBranch env branchName = some [] →
      getRebaseLandStatus env branchName = "EMPTY") ∧
    (∀ (commits : List GitCommit) (mainBranch : String) (analysis : CommitAnalysis)
        (mainChangeIDs : List String),
      getCommitsInBranch env branchName = some commits →
      commits ≠ [] →
      findMainBranch env = some mainBranch →
      analyzeCommits env commits mainBranch branchName = some analysis →
      analysis.firstConflict = none →
      analysis.validCommits = [] →
      getChangeIDsInRef env mainBranch branchName = some mainChangeIDs →
      getRebaseLandStatus env branchName =
        (if commits.all (fun commit => commit.changeIDs.any
            (fun changeID => mainChangeIDs.contains changeID)) then "LANDED" else "EMPTY")) := by
  refine ⟨?_, ?_, ?_, ?_⟩
  · intro h
    unfold getRebaseLandStatus
    rw [h]
  · intro h
    unfold getRebaseLandStatus getCommitsInBranch
    rw [h]
  · intro h
    unfold getRebaseLandStatus
    rw [h]
    rfl
  · intro commits mainBranch analysis mainChangeIDs hcommits hne hmain hana hconf hvalid hids
    have hlen : (commits.length == 0) = false := by
      simp [List.length_eq_zero, hne]
    unfold getRebaseLandStatus
    simp only [hcommits, hmain, hana, hlen, Bool.false_eq_true, if_false, hconf,
      Option.isSome_none, hvalid, List.length_nil, hids]
    rw [countP_beq_length_eq_all]
    rfl

/-- C4 witness: in the status fixture the single branch commit is already
landed by token, and the classifier reports LANDED. -/
theorem c4_witness : getRebaseLandStatus envStatus "sketch/w" = "LANDED" := by
  have h := (c4_status_classifier envStatus "sketch/w").2.2.2 [gcLanded] "main"
    ⟨[], none, none⟩ ["I1"] (by decide) (by decide) (by decide) (by decide) rfl rfl (by decide)
  rw [h]
  decide

/-- C5: with a source branch given, a failed merge-base computation makes
getChangeIDsInRef scan the ref's full history (the same window as with no
source branch), and a merge-base without a parent makes the window
boundary the merge-base itself (`mergeBase..ref`) rather than its parent
(`mergeBase^..ref`). -/
theorem c5_merge_base_fallbacks (env : GitEnv) (ref sourceBranch : String)
    (hsrc : sourceBranch ≠ "") :
    getChangeIDsInRef env ref sourceBranch =
      (env.logBodies (logRangeArg env ref sourceBranch)).map extractChangeIDs ∧
    (env.mergeBase ref sourceBranch = none →
      logRangeArg env ref sourceBranch = ref ∧
      getChangeIDsInRef env ref sourceBranch = getChangeIDsInRef env ref "") ∧
    (∀ output, env.mergeBase ref sourceBranch = some output →
      env.revParseOk (goTrimSpace output ++ "^") = false →
      logRangeArg env ref sourceBranch = goTrimSpace output ++ ".." ++ ref) := by
  have hbeq : (sourceBranch == "") = false := beq_eq_false_iff_ne.mpr hsrc
  refine ⟨?_, ?_, ?_⟩
  · unfold getChangeIDsInRef
    cases env.logBodies (logRangeArg env ref sourceBranch) <;> rfl
  · intro h
    have harg : logRangeArg env ref sourceBranch = ref := by
      unfold logRangeArg
      simp [hbeq, h]
    refine ⟨harg, ?_⟩
    unfold getChangeIDsInRef
    rw [harg]
    have harg2 : logRangeArg env ref "" = ref := by
      unfold logRangeArg
      simp
    rw [harg2]
  · intro output houtput hrev
    unfold logRangeArg
    simp [hbeq, houtput, hrev]

/-- C5 witness: the no-common-history fallback applied to the trivial
environment. -/
theorem c5_witness :
    logRangeArg envTrivial "r" "s" = "r" ∧
    getChangeIDsInRef envTrivial "r" "s" = getChangeIDsInRef envTrivial "r" "" :=
  (c5_merge_base_fallbacks envTrivial "r" "s" (by decide)).2.1 rfl

/-- C7: a drafted squash message passes validation only if its first line
is non-blank and it contains, verbatim (as an extracted Change-Id trailer
and hence as a contiguous substring), every expected Change-Id token; and
on a service error or a validation failure the message-selection path
falls back to the deterministic synthesis, surfacing no error. -/
theorem c7_llm_validation :
    (∀ (response : String) (expectedChangeIDs : List String),
      validateLLMResponse response expectedChangeIDs = none →
      (∃ firstLine rest, splitOnNewline response = firstLine :: rest ∧
        goTrimSpace firstLine ≠ "") ∧
      ∀ changeID ∈ expectedChangeIDs,
        changeID ∈ extractChangeIDs response ∧ changeID.data <:+: response.data) ∧
    (∀ (env : GitEnv) (commits : List GitCommit) (changeIdOrder : List String)
        (llmResult : Option String),
      (llmResult = none ∨ ∃ llmMessage, llmResult = some llmMessage ∧
        validateLLMResponse llmMessage (allChangeIDs commits) ≠ none) →
      chooseSquashMessage env commits true llmResult changeIdOrder =
        createCombinedCommitMessageWith env commits changeIdOrder) := by
  constructor
  · intro response expectedChangeIDs hv
    unfold validateLLMResponse at hv
    cases hsplit : splitOnNewline response with
    | nil => rw [hsplit] at hv; exact absurd hv (by simp)
    | cons firstLine rest =>
      rw [hsplit] at hv
      by_cases hfirst : goTrimSpace firstLine = ""
      · simp [hfirst] at hv
      · simp only [hfirst, beq_iff_eq, if_false] at hv
        have hforall : ∀ changeID ∈ expectedChangeIDs,
            changeID ∈ extractChangeIDs response := by
          by_cases hm : (expectedChangeIDs.filter
              (fun changeID => !((extractChangeIDs response).contains changeID))).length > 0
          · rw [if_pos hm] at hv
            exact absurd hv (by simp)
          · have hnil := List.length_eq_zero.mp (Nat.eq_zero_of_not_pos hm)
            intro changeID hmem
            have hcontains := List.filter_eq_nil_iff.mp hnil changeID hmem
            have hcontains' : (extractChangeIDs response).contains changeID = true := by
              simpa using hcontains
            exact List.elem_iff.mp hcontains'
        refine ⟨⟨firstLine, rest, rfl, hfirst⟩, ?_⟩
        intro changeID hmem
        have hmemr := hforall changeID hmem
        exact ⟨hmemr, (extractChangeIDs_mem_part response changeID hmemr).1⟩
  · intro env commits changeIdOrder llmResult h
    rcases h with h | ⟨llmMessage, hres, hval⟩
    · rw [h]
      rfl
    · rw [hres]
      unfold chooseSquashMessage
      cases hcase : validateLLMResponse llmMessage (allChangeIDs commits) with
      | none => exact absurd hcase hval
      | some e => simp [hcase]

/-- C7 witness: a concrete accepted response carries its token, and a
service error falls back to the deterministic message. -/
theorem c7_witness :
    ("I1" : String) ∈ extractChangeIDs "Subject\n\nChange-Id: I1" ∧
    chooseSquashMessage envTrivial [] true none [] =
      createCombinedCommitMessageWith envTrivial [] [] := by
  refine ⟨?_, c7_llm_validation.2 envTrivial [] [] none (Or.inl rfl)⟩
  exact ((c7_llm_validation.1 "Subject\n\nChange-Id: I1" ["I1"] (by decide)).2
    "I1" (by decide)).1

/-- C8 counterexample: both token orders are legal map-iteration orders of
the squash fixture's de-duplicated Change-Id set, yet they synthesise
different message strings — two invocations of the Go function on the same
commit list need not agree, refuting the determinism claim. -/
theorem c8_counterexample :
    List.Perm ["IA", "IB"] (dedupChangeIDs squashPair) ∧
    List.Perm ["IB", "IA"] (dedupChangeIDs squashPair) ∧
    createCombinedCommitMessageWith envTrivial squashPair ["IA", "IB"] ≠
      createCombinedCommitMessageWith envTrivial squashPair ["IB", "IA"] := by
  refine ⟨by decide, by decide, by decide⟩

/-- C8 (amended): the synthesis is deterministic up to the order of the
trailing Change-Id lines: for any two map-iteration orders, the line
lists are permutations of each other sharing the fixed prefix (first
subject, blank, enumeration, blank); the trailer lines cover exactly the
de-duplicated token union; and with at most one distinct token the
message string is fully deterministic. -/
theorem c8_message_structure (env : GitEnv) (commits : List GitCommit)
    (order1 order2 : List String)
    (h1 : List.Perm order1 (dedupChangeIDs commits))
    (h2 : List.Perm order2 (dedupChangeIDs commits)) :
    List.Perm
      (combinedMessagePre env commits ++
        order1.map (fun changeID => "Change-Id: " ++ changeID))
      (combinedMessagePre env commits ++
        order2.map (fun changeID => "Change-Id: " ++ changeID)) ∧
    createCombinedCommitMessageWith env commits order1 =
      String.intercalate "\n"
        (combinedMessagePre env commits ++
          order1.map (fun changeID => "Change-Id: " ++ changeID)) ∧
    (∀ changeID, changeID ∈ order1 ↔ changeID ∈ dedupChangeIDs commits) ∧
    ((dedupChangeIDs commits).length ≤ 1 →
      createCombinedCommitMessageWith env commits order1 =
        createCombinedCommitMessageWith env commits order2) := by
  refine ⟨List.Perm.append_left _ ((h1.trans h2.symm).map _), rfl,
    fun changeID => h1.mem_iff, ?_⟩
  intro hlen
  have horders : order1 = order2 := by
    cases hd : dedupChangeIDs commits with
    | nil =>
      rw [hd] at h1 h2
      rw [List.perm_nil.mp h1, List.perm_nil.mp h2]
    | cons a as =>
      cases has : as with
      | nil =>
        rw [hd, has] at h1 h2
        rw [List.perm_singleton.mp h1, List.perm_singleton.mp h2]
      | cons b bs =>
        rw [hd, has] at hlen
        simp at hlen
  rw [horders]

/-- C8 witness: the amended structure theorem applied to the squash
fixture's two orders. -/
theorem c8_witness :
    List.Perm
      (combinedMessagePre envTrivial squashPair ++
        (["IA", "IB"] : List String).map (fun changeID => "Change-Id: " ++ changeID))
      (combinedMessagePre envTrivial squashPair ++
        (["IB", "IA"] : List String).map (fun changeID => "Change-Id: " ++ changeID)) :=
  (c8_message_structure envTrivial squashPair ["IA", "IB"] ["IB", "IA"]
    (by decide) (by decide)).1

/-- C9: branch-name normalization always yields a `sketch/`-prefixed
name, is idempotent, is the identity on already-prefixed names, and for
an unprefixed name agrees on `x` and `sketch/x` — so land, drop and
update (which all normalize their argument first) address the same
`sketch/` ref either way. -/
theorem c9_normalize_branch (branch : String) :
    strHasPre (normalizeSketchBranch branch) "sketch/" = true ∧
    normalizeSketchBranch (normalizeSketchBranch branch) = normalizeSketchBranch branch ∧
    (strHasPre branch "sketch/" = true → normalizeSketchBranch branch = branch) ∧
    normalizeSketchBranch ("sketch/" ++ branch) = "sketch/" ++ branch ∧
    (strHasPre branch "sketch/" = false →
      normalizeSketchBranch ("sketch/" ++ branch) = normalizeSketchBranch branch) := by
  have hap : strHasPre ("sketch/" ++ branch) "sketch/" = true := strHasPre_append _ _
  by_cases h : strHasPre branch "sketch/"
  · simp [normalizeSketchBranch, h, hap]
  · simp only [Bool.not_eq_true] at h
    simp [normalizeSketchBranch, h, hap]

/-- C9 witness: normalization facts at concrete branch names. -/
theorem c9_witness :
    strHasPre (normalizeSketchBranch "sketch/x") "sketch/" = true ∧
    normalizeSketchBranch "sketch/x" = "sketch/x" ∧
    normalizeSketchBranch ("sketch/" ++ "x") = normalizeSketchBranch "x" :=
  ⟨(c9_normalize_branch "sketch/x").1,
   (c9_normalize_branch "sketch/x").2.2.1 (by decide),
   (c9_normalize_branch "x").2.2.2.2 (by decide)⟩

/-- C10: the ref token index reads only commit bodies (`%b`), so it is
invariant under changing subjects; and a Change-Id sitting only in a
commit's subject line is invisible to the index while `getCommitInfo`
(`%s%n%b`) extracts it — hence a branch commit carrying that token is not
filtered against the ref's token set. -/
theorem c10_token_asymmetry :
    (∀ (refCommits1 refCommits2 : String → List RepoCommit)
        (commitOf1 commitOf2 : String → Option RepoCommit) (ref : String),
      (refCommits1 ref).map RepoCommit.body = (refCommits2 ref).map RepoCommit.body →
      getChangeIDsInRef (repoEnv refCommits1 commitOf1) ref "" =
        getChangeIDsInRef (repoEnv refCommits2 commitOf2) ref "") ∧
    (rcAsym "main").map RepoCommit.subject = ["Change-Id: Ix1"] ∧
    getChangeIDsInRef (repoEnv rcAsym coAsym) "main" "" = some [] ∧
    getCommitInfo (repoEnv rcAsym coAsym) "h1" = some gcAsym ∧
    gcAsym.changeIDs = ["Ix1"] ∧
    filterNewCommits [gcAsym] [] = [gcAsym] := by
  refine ⟨?_, by decide, by decide, by decide, by decide, by decide⟩
  intro rc1 rc2 co1 co2 ref hbody
  have hjoin : refBodiesLog (rc1 ref) = refBodiesLog (rc2 ref) := by
    unfold refBodiesLog
    have e1 : (rc1 ref).map (fun c => c.body ++ "\n") =
        ((rc1 ref).map RepoCommit.body).map (fun b => b ++ "\n") := by
      rw [List.map_map]
      rfl
    have e2 : (rc2 ref).map (fun c => c.body ++ "\n") =
        ((rc2 ref).map RepoCommit.body).map (fun b => b ++ "\n") := by
      rw [List.map_map]
      rfl
    rw [e1, e2, hbody]
  simp [getChangeIDsInRef, logRangeArg, repoEnv, hjoin]

/-- C10 witness: two repositories whose `main` bodies agree but whose
subjects differ index the same token set. -/
theorem c10_witness :
    getChangeIDsInRef (repoEnv rcSubjOne coAsym) "main" "" =
      getChangeIDsInRef (repoEnv rcSubjTwo coAsym) "main" "" :=
  c10_token_asymmetry.1 rcSubjOne rcSubjTwo coAsym coAsym "main" (by decide)
